import Mathlib

/-!
Shallow embedding of the AQW username availability checker
(`main.js` / worker-thread variant): the worker-side check loop
`workerCheckAvailability`, the worker-thread message dispatch, and the
coordinator `runMain` (read input, load known set, filter, chunk, spawn,
join, merge, dedup, append).

Strings are embedded as lists of characters (`JStr`), file contents as a
single `JStr`, and the nondeterministic external world (probe outcomes,
connection health, worker-thread fates) as explicit oracle parameters.
-/

namespace Xin

/-- JavaScript strings, embedded as lists of characters. -/
abbrev JStr := List Char

/-- `const USERNAME_NOT_FOUND_MESSAGE = 'Not Found!'`. -/
def USERNAME_NOT_FOUND_MESSAGE : JStr := "Not Found!".data

/-- Whitespace predicate used by `String.prototype.trim`. -/
def isWs (c : Char) : Bool := c.isWhitespace

/-- `s.trim()`: drop whitespace from both ends. -/
def trimChars (l : JStr) : JStr :=
  ((l.dropWhile isWs).reverse.dropWhile isWs).reverse

/-- `s.split(/\r?\n/)` modulo the trim that always follows it in the
source: split on `'\n'`; the optional preceding `'\r'` is removed by the
subsequent `trim` in both the source and this model. -/
def splitNl : JStr → List JStr
  | [] => [[]]
  | c :: cs => if c = '\n' then [] :: splitNl cs else (splitNl cs).modifyHead (c :: ·)

/-- `content.split(/\r?\n/).map(u => u.trim()).filter(Boolean)`:
the line-parsing step shared by the input reader and the store loader. -/
def parseLines (content : JStr) : List JStr :=
  ((splitNl content).map trimChars).filter (fun l => l ≠ [])

/-- Outcome of one probe (`page.goto` + `page.evaluate`) for one username:
either some step threw (navigation error, timeout, evaluation failure),
or the page loaded and the `#serveralert` node was observed — absent
(`none`) or present with the given raw text content. -/
inductive ProbeStep where
  | throws
  | loaded (node : Option JStr)
deriving DecidableEq

/-- The `page.evaluate` body:
`serverAlert && serverAlert.textContent.trim() === msg`
(a `null` node makes the conjunction falsy). -/
def evalIsAvailable (node : Option JStr) : Bool :=
  match node with
  | none => false
  | some txt => trimChars txt = USERNAME_NOT_FOUND_MESSAGE

/-- The spec's three-valued classification of one probe: `available` when
the marker node carries the sentinel, `unavailable` for any other loaded
page, `indeterminate` when the probe threw. -/
inductive CheckResult where
  | available
  | unavailable
  | indeterminate
deriving DecidableEq

/-- The Check Protocol as a classification of the observed probe step. -/
def classify (step : ProbeStep) : CheckResult :=
  match step with
  | .throws => .indeterminate
  | .loaded node => if evalIsAvailable node then .available else .unavailable

/-- The `for (const username of usernamesToCheck)` loop of
`workerCheckAvailability`: each iteration is wrapped in its own
`try { ... } catch { /* continue */ }`, and a username is pushed onto the
accumulator exactly when `isAvailable` evaluated to true. -/
def workerLoop (probe : JStr → ProbeStep) : List JStr → List JStr
  | [] => []
  | u :: rest =>
    match probe u with
    | .throws => workerLoop probe rest
    | .loaded node =>
      if evalIsAvailable node then u :: workerLoop probe rest
      else workerLoop probe rest

/-- The external-world oracle for one worker: whether `puppeteer.connect`
succeeds, whether `browser.newPage` succeeds, the per-username probe
outcomes, whether the trailing `page.close` succeeds (its failure is
swallowed by the outer `catch`), and whether the `finally`-block
`browser.disconnect` succeeds (its failure rejects the whole promise). -/
structure WorkerEnv where
  connectOk : Bool
  newPageOk : Bool
  probe : JStr → ProbeStep
  closeOk : Bool
  disconnectOk : Bool

/-- `workerCheckAvailability`: `.ok acc` means the returned promise
resolves with `acc`; `.error ()` means it rejects.  A `connect` failure
leaves `browser` unset, so `finally` skips `disconnect` and the function
returns the (empty) accumulator.  After a successful connect, the body's
failures (including a failing `page.close`, which `closeOk` records) are
caught by the outer `catch`, so the accumulator built by the loop is
still returned — unless `disconnect` in `finally` itself throws, which
rejects the promise. -/
def workerCheckAvailability (env : WorkerEnv) (usernamesToCheck : List JStr) :
    Except Unit (List JStr) :=
  if env.connectOk = false then .ok []
  else if env.newPageOk = false then
    if env.disconnectOk then .ok [] else .error ()
  else
    let acc := workerLoop env.probe usernamesToCheck
    if env.disconnectOk then .ok acc else .error ()

/-- The worker-thread entry (`if (!isMainThread)` block): on resolution it
posts `{ availableUsernames }`; on rejection the `.catch` posts
`{ availableUsernames: [] }`.  Either way exactly one message is posted. -/
def workerThreadPost (env : WorkerEnv) (us : List JStr) : List JStr :=
  match workerCheckAvailability env us with
  | .ok acc => acc
  | .error _ => []

/-- How one spawned worker's promise settles in the coordinator:
`completes env` — the `message` event fires first (promise resolves with
the posted report); `errorEvent` — the `error` event fires before any
message (the promise rejects); `abnormalExit` — the `exit` event fires
with a nonzero code and no message was posted (the promise resolves,
contributing nothing). -/
inductive WorkerFate where
  | completes (env : WorkerEnv)
  | errorEvent
  | abnormalExit

/-- What one worker adds to `newlyAvailableUsernames`. -/
def contribution (fate : WorkerFate) (chunk : List JStr) : List JStr :=
  match fate with
  | .completes env => workerThreadPost env chunk
  | .errorEvent => []
  | .abnormalExit => []

def isErrorFate : WorkerFate → Bool
  | .errorEvent => true
  | _ => false

/-- `Math.ceil(total / n)` for a positive integer `n`. -/
def perWorker (total n : Nat) : Nat := (total + n - 1) / n

/-- Iteration count of `for (let i = 0; i < numWorkers; i++)`:
`none` models `numWorkers` being `NaN` (`i < NaN` is false, zero
iterations); a non-positive integer also gives zero iterations. -/
def jsLoopIters (w : Option Int) : Nat :=
  match w with
  | none => 0
  | some z => z.toNat

/-- The chunking loop: chunk `i` is `usernamesToCheck.slice(i*per, (i+1)*per)`;
empty chunks spawn no worker (`if (usernamesChunk.length > 0)`). -/
def sliceChunks (ws : List JStr) (per iters : Nat) : List (List JStr) :=
  ((List.range iters).map (fun i => (ws.drop (i * per)).take per)).filter
    (fun c => c ≠ [])

/-- Chunks actually spawned for a work set and a worker count. -/
def chunksFor (ws : List JStr) (w : Option Int) : List (List JStr) :=
  sliceChunks ws (perWorker ws.length (jsLoopIters w)) (jsLoopIters w)

/-- `[...new Set(arr)]`: deduplicate keeping the first occurrence of each
element, in insertion order (`seen` holds the elements already kept). -/
def jsSetDedupAux (seen : List JStr) : List JStr → List JStr
  | [] => []
  | x :: xs => if x ∈ seen then jsSetDedupAux seen xs
               else x :: jsSetDedupAux (x :: seen) xs

def jsSetDedup (l : List JStr) : List JStr := jsSetDedupAux [] l

/-- The whole external world of one `runMain` call: the input file's
content (`none`: `fs.readFile` threw), the store file's content (`none`:
absent or unreadable, treated as an empty known set), the optional
worker-count argument (`none`: absent, fall back to `os.cpus().length`;
`some none`: supplied but `parseInt` returned `NaN`; `some (some z)`:
supplied and parsed to `z`), the CPU count, and each spawned worker's
fate by its chunk index. -/
structure RunConfig where
  inputContent : Option JStr
  storeContent : Option JStr
  workersArg : Option (Option Int)
  cpus : Nat
  fates : Nat → WorkerFate

/-- `const numWorkers = process.argv[3] ? parseInt(process.argv[3], 10) : os.cpus().length`
(`none` = `NaN`). -/
def RunConfig.numWorkers (cfg : RunConfig) : Option Int :=
  match cfg.workersArg with
  | none => some cfg.cpus
  | some p => p

/-- The store content the run starts from (absent store as `[]`). -/
def RunConfig.store0 (cfg : RunConfig) : JStr := cfg.storeContent.getD []

/-- `existingAvailableUsernames`: the known set loaded from the store. -/
def RunConfig.known (cfg : RunConfig) : List JStr := parseLines cfg.store0

/-- `const usernamesToCheck = allUsernamesFromFile.filter(u => !existingAvailableUsernames.has(u))`. -/
def usernamesToCheck (cfg : RunConfig) (content : JStr) : List JStr :=
  (parseLines content).filter (fun u => ¬ u ∈ cfg.known)

/-- The chunks a run spawns workers for. -/
def runChunks (cfg : RunConfig) (content : JStr) : List (List JStr) :=
  chunksFor (usernamesToCheck cfg content) cfg.numWorkers

/-- Whether some spawned worker's `error` event rejects its promise (and
with it `Promise.all`). -/
def runAborted (cfg : RunConfig) (content : JStr) : Bool :=
  (List.range (runChunks cfg content).length).any (fun i => isErrorFate (cfg.fates i))

/-- `newlyAvailableUsernames`: the concatenation, in chunk order, of what
each spawned worker contributes. -/
def runNewly (cfg : RunConfig) (content : JStr) : List JStr :=
  ((runChunks cfg content).enum.map (fun p => contribution (cfg.fates p.1) p.2)).flatten

/-- Store content after the run: `fs.appendFile(file, unique.join('\n') + '\n')`
executes only when the join did not reject and `newlyAvailableUsernames`
is non-empty. -/
def runFinalStore (cfg : RunConfig) (content : JStr) : JStr :=
  if runAborted cfg content then cfg.store0
  else if runNewly cfg content = [] then cfg.store0
  else cfg.store0 ++ List.intercalate ['\n'] (jsSetDedup (runNewly cfg content)) ++ ['\n']

/-- Observable outcome of one `runMain` call: the exit code, the chunks
for which a worker was spawned, whether a worker `error` event made
`Promise.all` reject (jumping to the outer `catch` and skipping the
append), the merged `newlyAvailableUsernames`, and the store content
after the run (absent store modeled as `[]`, since `fs.appendFile`
creates the file). -/
structure RunResult where
  exitCode : Nat
  chunks : List (List JStr)
  joinAborted : Bool
  newly : List JStr
  finalStore : JStr

/-- `runMain`, straight-line: read and parse input (read failure →
`process.exit(1)`); load the known set; filter; early return when nothing
to check; chunk; spawn one worker per non-empty chunk; `Promise.all` the
per-worker promises (a worker `error` event rejects it — the outer
`catch` then skips result processing); merge reports; dedup with a `Set`;
append `unique.join('\n') + '\n'` when non-empty. -/
def runMain (cfg : RunConfig) : RunResult :=
  match cfg.inputContent with
  | none => ⟨1, [], false, [], cfg.store0⟩
  | some content =>
    if parseLines content = [] then ⟨0, [], false, [], cfg.store0⟩
    else if usernamesToCheck cfg content = [] then ⟨0, [], false, [], cfg.store0⟩
    else
      ⟨0, runChunks cfg content, runAborted cfg content, runNewly cfg content,
        runFinalStore cfg content⟩

/-! ### Supporting lemmas -/

/-- Whether the probe of `u` ends with `isAvailable` true (pushed onto the
worker's accumulator). -/
def probeAvail (probe : JStr → ProbeStep) (u : JStr) : Bool :=
  match probe u with
  | .throws => false
  | .loaded node => evalIsAvailable node

theorem workerLoop_eq_filter (probe : JStr → ProbeStep) (us : List JStr) :
    workerLoop probe us = us.filter (probeAvail probe) := by
  induction us with
  | nil => rfl
  | cons u rest ih =>
    rw [workerLoop, List.filter_cons]
    rcases h : probe u with _ | node
    · simp [probeAvail, h, ih]
    · rcases Bool.eq_false_or_eq_true (evalIsAvailable node) with hn | hn <;>
        simp [probeAvail, h, hn, ih]

theorem workerLoop_sublist (probe : JStr → ProbeStep) (us : List JStr) :
    List.Sublist (workerLoop probe us) us := by
  rw [workerLoop_eq_filter]; exact List.filter_sublist us

theorem workerThreadPost_sublist (env : WorkerEnv) (us : List JStr) :
    List.Sublist (workerThreadPost env us) us := by
  unfold workerThreadPost workerCheckAvailability
  cases hc : env.connectOk <;> cases hn : env.newPageOk <;>
    cases hd : env.disconnectOk <;>
    simp [hc, hn, hd, workerLoop_sublist]

theorem contribution_sublist (fate : WorkerFate) (chunk : List JStr) :
    List.Sublist (contribution fate chunk) chunk := by
  cases fate with
  | completes env => exact workerThreadPost_sublist env chunk
  | errorEvent => simp [contribution]
  | abnormalExit => simp [contribution]

theorem mem_jsSetDedupAux {u : JStr} :
    ∀ (l seen : List JStr), u ∈ jsSetDedupAux seen l ↔ u ∈ l ∧ ¬ u ∈ seen := by
  intro l
  induction l with
  | nil => intro seen; simp [jsSetDedupAux]
  | cons x xs ih =>
    intro seen
    rw [jsSetDedupAux]
    by_cases hx : x ∈ seen
    · rw [if_pos hx, ih seen]
      constructor
      · rintro ⟨h1, h2⟩
        exact ⟨List.mem_cons_of_mem x h1, h2⟩
      · rintro ⟨h1, h2⟩
        rcases List.mem_cons.mp h1 with rfl | h1
        · exact absurd hx h2
        · exact ⟨h1, h2⟩
    · rw [if_neg hx]
      by_cases hux : u = x
      · subst hux
        simp [hx]
      · simp only [List.mem_cons, hux, false_or]
        rw [ih (x :: seen)]
        simp [hux]

theorem mem_jsSetDedup {u : JStr} {l : List JStr} : u ∈ jsSetDedup l ↔ u ∈ l := by
  rw [jsSetDedup, mem_jsSetDedupAux]
  simp

/-- Every chunk the slicer produces is a contiguous slice of the work set,
hence a sublist of it. -/
theorem mem_sliceChunks_sublist {c : List JStr} {ws : List JStr} {per iters : Nat}
    (h : c ∈ sliceChunks ws per iters) : List.Sublist c ws := by
  unfold sliceChunks at h
  have h' := List.mem_of_mem_filter h
  obtain ⟨i, _, rfl⟩ := List.mem_map.mp h'
  exact ((List.take_sublist _ _).trans (List.drop_sublist _ _))

theorem mem_chunksFor_sublist {c : List JStr} {ws : List JStr} {w : Option Int}
    (h : c ∈ chunksFor ws w) : List.Sublist c ws :=
  mem_sliceChunks_sublist h

theorem mem_sliceChunks_ne_nil {c : List JStr} {ws : List JStr} {per iters : Nat}
    (h : c ∈ sliceChunks ws per iters) : c ≠ [] := by
  unfold sliceChunks at h
  have := List.of_mem_filter h
  simpa using this

/-! ### Trim and line-splitting lemmas -/

theorem trimChars_sublist (l : JStr) : List.Sublist (trimChars l) l := by
  unfold trimChars
  have h1 : List.Sublist ((l.dropWhile isWs).reverse.dropWhile isWs)
      (l.dropWhile isWs).reverse := List.dropWhile_sublist _
  have h2 := h1.reverse
  simp only [List.reverse_reverse] at h2
  exact h2.trans (List.dropWhile_sublist isWs)

theorem not_mem_trimChars {c : Char} {l : JStr} (h : ¬ c ∈ l) : ¬ c ∈ trimChars l :=
  fun hc => h ((trimChars_sublist l).subset hc)

/-- `dropWhile` leaves a list whose head, if any, fails the predicate. -/
theorem head_dropWhile_false (p : Char → Bool) (l : JStr) :
    ∀ c, (l.dropWhile p).head? = some c → p c = false := by
  induction l with
  | nil => intro c hc; simp at hc
  | cons a t ih =>
    intro c hc
    rw [List.dropWhile_cons] at hc
    by_cases ha : p a = true
    · rw [if_pos ha] at hc; exact ih c hc
    · rw [if_neg ha] at hc
      simp at hc
      rw [← hc]
      exact Bool.eq_false_iff.mpr ha

theorem dropWhile_of_head_false {p : Char → Bool} {l : JStr}
    (h : ∀ c, l.head? = some c → p c = false) : l.dropWhile p = l := by
  cases l with
  | nil => rfl
  | cons a t =>
    rw [List.dropWhile_cons, if_neg]
    simp [h a rfl]

/-- The trimmed list starts (when non-empty) with the first
non-whitespace character of `l`, so a further front trim is a no-op. -/
theorem dropWhile_trimChars (l : JStr) :
    List.dropWhile isWs (trimChars l) = trimChars l := by
  apply dropWhile_of_head_false
  intro c hc
  obtain ⟨t, ht⟩ := List.dropWhile_suffix (l := (l.dropWhile isWs).reverse) (p := isWs)
  have hpre : trimChars l ++ t.reverse = l.dropWhile isWs := by
    have := congrArg List.reverse ht
    simpa [trimChars] using this
  cases hT : trimChars l with
  | nil => rw [hT] at hc; simp at hc
  | cons a s =>
    rw [hT] at hc
    simp at hc
    subst hc
    apply head_dropWhile_false isWs l
    rw [← hpre, hT]
    simp

theorem trimChars_idem (l : JStr) : trimChars (trimChars l) = trimChars l := by
  calc trimChars (trimChars l)
      = ((trimChars l).reverse.dropWhile isWs).reverse := by
        rw [trimChars, dropWhile_trimChars]
    _ = trimChars l := by
        rw [show (trimChars l).reverse = ((l.dropWhile isWs).reverse).dropWhile isWs from by
          simp [trimChars]]
        rw [List.dropWhile_idempotent]
        simp [trimChars]

/-- A file whose every line is `'\n'`-terminated: the shape every
`appendFile` performed by this program preserves. -/
def joinLines : List JStr → JStr
  | [] => []
  | l :: ls => l ++ '\n' :: joinLines ls

theorem splitNl_ne_nil (l : JStr) : splitNl l ≠ [] := by
  cases l with
  | nil => simp [splitNl]
  | cons c cs =>
    rw [splitNl]
    by_cases h : c = '\n'
    · simp [h]
    · rw [if_neg h]
      cases hs : splitNl cs with
      | nil => exact absurd hs (splitNl_ne_nil cs)
      | cons a t => simp

theorem mem_splitNl_no_newline (l : JStr) : ∀ s ∈ splitNl l, ¬ '\n' ∈ s := by
  induction l with
  | nil => simp [splitNl]
  | cons c cs ih =>
    intro s hs
    rw [splitNl] at hs
    by_cases h : c = '\n'
    · rw [if_pos h] at hs
      rcases List.mem_cons.mp hs with h1 | h1
      · subst h1; simp
      · exact ih s h1
    · rw [if_neg h] at hs
      cases hSplit : splitNl cs with
      | nil => exact absurd hSplit (splitNl_ne_nil cs)
      | cons a t =>
        rw [hSplit, List.modifyHead_cons] at hs
        rcases List.mem_cons.mp hs with h1 | h1
        · subst h1
          intro hmem
          rcases List.mem_cons.mp hmem with h2 | h2
          · exact h h2.symm
          · exact ih a (by rw [hSplit]; exact List.mem_cons_self a t) h2
        · exact ih s (by rw [hSplit]; exact List.mem_cons_of_mem a h1)

theorem splitNl_append_newline {l : JStr} (t : JStr) (h : ¬ '\n' ∈ l) :
    splitNl (l ++ '\n' :: t) = l :: splitNl t := by
  induction l with
  | nil => simp [splitNl]
  | cons c cs ih =>
    have hc : c ≠ '\n' := fun hc => h (hc ▸ List.mem_cons_self c cs)
    have hcs : ¬ '\n' ∈ cs := fun hm => h (List.mem_cons_of_mem c hm)
    rw [List.cons_append, splitNl, if_neg hc, ih hcs, List.modifyHead_cons]

theorem splitNl_joinLines {ls : List JStr} (h : ∀ l ∈ ls, ¬ '\n' ∈ l) :
    splitNl (joinLines ls) = ls ++ [[]] := by
  induction ls with
  | nil => simp [joinLines, splitNl]
  | cons l rest ih =>
    rw [joinLines, splitNl_append_newline _ (h l (List.mem_cons_self l rest)),
      ih (fun x hx => h x (List.mem_cons_of_mem l hx))]
    rfl

theorem parseLines_joinLines {ls : List JStr} (h : ∀ l ∈ ls, ¬ '\n' ∈ l) :
    parseLines (joinLines ls) = (ls.map trimChars).filter (fun l => l ≠ []) := by
  rw [parseLines, splitNl_joinLines h, List.map_append, List.filter_append]
  simp [trimChars]

theorem joinLines_append (a b : List JStr) :
    joinLines (a ++ b) = joinLines a ++ joinLines b := by
  induction a with
  | nil => simp [joinLines]
  | cons l rest ih =>
    rw [List.cons_append, joinLines, joinLines, ih]
    simp

theorem intercalate_newline {us : List JStr} (h : us ≠ []) :
    List.intercalate ['\n'] us ++ ['\n'] = joinLines us := by
  induction us with
  | nil => exact absurd rfl h
  | cons u rest ih =>
    cases rest with
    | nil => simp [List.intercalate, joinLines]
    | cons v vs =>
      rw [joinLines, ← ih (by simp)]
      simp [List.intercalate, List.append_assoc]

/-- Elements of `parseLines` are trimmed, non-empty and `'\n'`-free. -/
theorem mem_parseLines {u : JStr} {content : JStr} (h : u ∈ parseLines content) :
    trimChars u = u ∧ u ≠ [] ∧ ¬ '\n' ∈ u := by
  have h1 := List.mem_of_mem_filter h
  have h2 := List.of_mem_filter h
  obtain ⟨s, hs, rfl⟩ := List.mem_map.mp h1
  refine ⟨trimChars_idem s, by simpa using h2,
    not_mem_trimChars (mem_splitNl_no_newline content s hs)⟩

/-- Appending newline-terminated lines: the new content parses to the old
lines followed by the new ones (new lines already trimmed and non-empty). -/
theorem parseLines_append {raw : List JStr} {us : List JStr}
    (hraw : ∀ l ∈ raw, ¬ '\n' ∈ l)
    (hus : ∀ u ∈ us, trimChars u = u ∧ u ≠ [] ∧ ¬ '\n' ∈ u)
    (hne : us ≠ []) :
    parseLines (joinLines raw ++ List.intercalate ['\n'] us ++ ['\n']) =
      parseLines (joinLines raw) ++ us := by
  rw [List.append_assoc, intercalate_newline hne, ← joinLines_append]
  rw [parseLines_joinLines (by
    intro l hl
    rcases List.mem_append.mp hl with h1 | h1
    · exact hraw l h1
    · exact (hus l h1).2.2)]
  rw [parseLines_joinLines hraw, List.map_append, List.filter_append]
  congr 1
  have hmap : us.map trimChars = us := by
    conv_rhs => rw [← List.map_id us]
    exact List.map_congr_left (fun u hu => (hus u hu).1)
  rw [hmap, List.filter_eq_self.mpr]
  intro a ha
  simpa using (hus a ha).2.1

/-! ### Chunking lemmas -/

theorem flatten_filter_ne_nil (l : List (List JStr)) :
    (l.filter (fun c => c ≠ [])).flatten = l.flatten := by
  induction l with
  | nil => rfl
  | cons a t ih =>
    rw [List.filter_cons]
    by_cases h : a = []
    · rw [if_neg (by simp [h]), ih, h, List.flatten_cons, List.nil_append]
    · rw [if_pos (by simp [h]), List.flatten_cons, List.flatten_cons, ih]

theorem flatten_slices (ws : List JStr) (per : Nat) :
    ∀ n : Nat, ((List.range n).map (fun i => (ws.drop (i * per)).take per)).flatten =
      ws.take (n * per) := by
  intro n
  induction n with
  | zero => simp
  | succ m ih =>
    rw [List.range_succ, List.map_append, List.flatten_append, ih]
    simp only [List.map_cons, List.map_nil, List.flatten_cons, List.flatten_nil,
      List.append_nil, Nat.succ_mul]
    rw [List.take_add]

theorem flatten_sliceChunks {ws : List JStr} {per iters : Nat}
    (hcov : ws.length ≤ iters * per) :
    (sliceChunks ws per iters).flatten = ws := by
  unfold sliceChunks
  rw [flatten_filter_ne_nil, flatten_slices, List.take_of_length_le hcov]

theorem perWorker_covers {total n : Nat} (h : 1 ≤ n) : total ≤ n * perWorker total n := by
  unfold perWorker
  rcases Nat.eq_zero_or_pos total with ht | ht
  · simp [ht]
  · have h1 : (total + n - 1) % n < n := Nat.mod_lt _ h
    have h2 := Nat.div_add_mod (total + n - 1) n
    omega

/-- For a positive worker count the spawned chunks concatenate back to the
work set, in order. -/
theorem flatten_chunksFor {ws : List JStr} {z : Int} (h : 1 ≤ z) :
    (chunksFor ws (some z)).flatten = ws := by
  unfold chunksFor
  apply flatten_sliceChunks
  have hz : 1 ≤ jsLoopIters (some z) := by
    simp only [jsLoopIters]
    omega
  exact perWorker_covers hz

/-- Two different slices of a duplicate-free list share no element. -/
theorem slice_disjoint {ws : List JStr} (hnd : ws.Nodup) {per i j : Nat} (hij : i < j) :
    List.Disjoint ((ws.drop (i * per)).take per) ((ws.drop (j * per)).take per) := by
  intro x hxi hxj
  have hle : i * per + per ≤ j * per := by
    calc i * per + per = (i + 1) * per := (Nat.succ_mul i per).symm
      _ ≤ j * per := Nat.mul_le_mul_right per hij
  have hxTake : x ∈ ws.take (i * per + per) := by
    rw [List.take_drop (i * per) per ws] at hxi
    exact (List.drop_subset _ _) hxi
  have hxDrop : x ∈ ws.drop (i * per + per) := by
    have hsplit : ws.drop (j * per) =
        (ws.drop (i * per + per)).drop (j * per - (i * per + per)) := by
      rw [List.drop_drop, Nat.add_sub_cancel' hle]
    have hx2 : x ∈ ws.drop (j * per) := (List.take_subset _ _) hxj
    rw [hsplit] at hx2
    exact (List.drop_subset _ _) hx2
  have hdisj : List.Disjoint (ws.take (i * per + per)) (ws.drop (i * per + per)) := by
    apply List.disjoint_of_nodup_append
    rwa [List.take_append_drop]
  exact hdisj hxTake hxDrop

/-- Distinct chunks are disjoint as long as the work set has no duplicate
identifiers. -/
theorem sliceChunks_pairwise_disjoint {ws : List JStr} {per iters : Nat}
    (hnd : ws.Nodup) :
    (sliceChunks ws per iters).Pairwise List.Disjoint := by
  unfold sliceChunks
  apply List.Pairwise.sublist (List.filter_sublist _)
  rw [List.pairwise_map]
  exact (List.pairwise_lt_range iters).imp (fun {a b} h => slice_disjoint hnd h)

/-! ### Pipeline lemmas -/

theorem runMain_eq (cfg : RunConfig) (content : JStr)
    (hin : cfg.inputContent = some content) :
    runMain cfg =
      if parseLines content = [] then ⟨0, [], false, [], cfg.store0⟩
      else if usernamesToCheck cfg content = [] then ⟨0, [], false, [], cfg.store0⟩
      else ⟨0, runChunks cfg content, runAborted cfg content, runNewly cfg content,
            runFinalStore cfg content⟩ := by
  rw [runMain, hin]

theorem chunksFor_eq_nil {ws : List JStr} {w : Option Int} (h : jsLoopIters w = 0) :
    chunksFor ws w = [] := by
  unfold chunksFor sliceChunks
  rw [h]
  rfl

theorem runNewly_eq_nil_of_chunks_nil {cfg : RunConfig} {content : JStr}
    (h : runChunks cfg content = []) : runNewly cfg content = [] := by
  unfold runNewly
  rw [h]
  rfl

/-- Whatever the worker fates, everything merged into
`newlyAvailableUsernames` comes from the parsed input file. -/
theorem runNewly_subset_input (cfg : RunConfig) (content : JStr) :
    ∀ u ∈ runNewly cfg content, u ∈ parseLines content := by
  intro u hu
  unfold runNewly at hu
  obtain ⟨ys, hys, hu⟩ := List.mem_flatten.mp hu
  obtain ⟨p, hp, rfl⟩ := List.mem_map.mp hys
  have h2 : u ∈ p.2 := (contribution_sublist _ _).subset hu
  have hmem : p.2 ∈ runChunks cfg content := by
    have := List.mem_map_of_mem Prod.snd hp
    rwa [List.enum_map_snd] at this
  have h3 : u ∈ usernamesToCheck cfg content :=
    (mem_chunksFor_sublist hmem).subset h2
  exact (List.filter_sublist _).subset h3

theorem mem_runNewly_not_known {cfg : RunConfig} {content : JStr} {u : JStr}
    (hu : u ∈ runNewly cfg content) : ¬ u ∈ cfg.known := by
  unfold runNewly at hu
  obtain ⟨ys, hys, hu⟩ := List.mem_flatten.mp hu
  obtain ⟨p, hp, rfl⟩ := List.mem_map.mp hys
  have h2 : u ∈ p.2 := (contribution_sublist _ _).subset hu
  have hmem : p.2 ∈ runChunks cfg content := by
    have := List.mem_map_of_mem Prod.snd hp
    rwa [List.enum_map_snd] at this
  have h3 : u ∈ usernamesToCheck cfg content :=
    (mem_chunksFor_sublist hmem).subset h2
  have := List.of_mem_filter h3
  simpa using this

/-- When every worker completes over a shared pure probe `f`, the merge is
exactly the availability filter of the concatenated chunks. -/
theorem flatten_enumFrom_all_ok (f : JStr → ProbeStep) (fates : Nat → WorkerFate)
    (hf : ∀ i, fates i = .completes ⟨true, true, f, true, true⟩) :
    ∀ (n : Nat) (l : List (List JStr)),
      ((List.enumFrom n l).map (fun p => contribution (fates p.1) p.2)).flatten
        = l.flatten.filter (probeAvail f) := by
  intro n l
  induction l generalizing n with
  | nil => rfl
  | cons c rest ih =>
    have hpost : workerThreadPost ⟨true, true, f, true, true⟩ c = c.filter (probeAvail f) := by
      rw [← workerLoop_eq_filter]
      rfl
    show (contribution (fates n) c :: _).flatten = _
    rw [hf n]
    simp only [contribution] at ih ⊢
    rw [List.flatten_cons, hpost, ih (n+1), List.flatten_cons, List.filter_append]

theorem runNewly_all_ok (cfg : RunConfig) (content : JStr) (f : JStr → ProbeStep)
    (hf : ∀ i, cfg.fates i = .completes ⟨true, true, f, true, true⟩) :
    runNewly cfg content = ((runChunks cfg content).flatten).filter (probeAvail f) := by
  unfold runNewly
  exact flatten_enumFrom_all_ok f cfg.fates hf 0 (runChunks cfg content)

theorem runAborted_all_ok (cfg : RunConfig) (content : JStr) (f : JStr → ProbeStep)
    (hf : ∀ i, cfg.fates i = .completes ⟨true, true, f, true, true⟩) :
    runAborted cfg content = false := by
  unfold runAborted
  rw [List.any_eq_false]
  intro i _
  rw [hf i]
  simp [isErrorFate]

theorem chunksFor_flatten_of_ne_nil {ws : List JStr} {w : Option Int}
    (h : chunksFor ws w ≠ []) : (chunksFor ws w).flatten = ws := by
  rcases w with _ | z
  · exact absurd (chunksFor_eq_nil (show jsLoopIters none = 0 from rfl)) h
  · rcases le_or_lt 1 z with hz | hz
    · exact flatten_chunksFor hz
    · exact absurd (chunksFor_eq_nil (by simp only [jsLoopIters]; omega)) h

theorem jsSetDedup_ne_nil {l : List JStr} (h : l ≠ []) : jsSetDedup l ≠ [] := by
  cases l with
  | nil => exact absurd rfl h
  | cons x xs =>
    rw [jsSetDedup, jsSetDedupAux, if_neg (by simp)]
    simp

/-! ### Claim theorems -/

/-- C2: every identifier in the Known Result Set at run start is excluded
from the work set and never appears in any spawned chunk; the work set is
exactly the input identifiers minus the known-available set (membership
characterisation), as an order-preserving sublist of the input. -/
theorem C2_known_set_filtered (cfg : RunConfig) (content : JStr) :
    (∀ u, u ∈ usernamesToCheck cfg content ↔ u ∈ parseLines content ∧ ¬ u ∈ cfg.known)
    ∧ List.Sublist (usernamesToCheck cfg content) (parseLines content)
    ∧ (∀ u ∈ cfg.known, ∀ c ∈ runChunks cfg content, ¬ u ∈ c) := by
  refine ⟨fun u => ?_, List.filter_sublist _, fun u hu c hc hmem => ?_⟩
  · simp [usernamesToCheck, List.mem_filter]
  · have h3 : u ∈ usernamesToCheck cfg content :=
      (mem_chunksFor_sublist hc).subset hmem
    have := List.of_mem_filter h3
    simp at this
    exact this hu

/-- C4: the Check Protocol classifies a probe as `available` iff the
`#serveralert` node exists and its trimmed text equals `Not Found!`
exactly; an absent node on a loaded page, or any other text, is
`unavailable`; a thrown navigation/timeout/evaluation failure is
`indeterminate`, never a classification — and the worker pushes a
username exactly when the classification is `available`. -/
theorem C4_check_protocol_classification :
    (∀ step : ProbeStep,
        (classify step = .available ↔
          ∃ txt, step = .loaded (some txt) ∧ trimChars txt = USERNAME_NOT_FOUND_MESSAGE)
      ∧ (classify step = .indeterminate ↔ step = .throws))
    ∧ classify (.loaded none) = .unavailable
    ∧ (∀ txt, ¬ trimChars txt = USERNAME_NOT_FOUND_MESSAGE →
        classify (.loaded (some txt)) = .unavailable)
    ∧ (∀ probe : JStr → ProbeStep, ∀ u,
        probeAvail probe u = true ↔ classify (probe u) = .available) := by
  refine ⟨fun step => ⟨⟨?_, ?_⟩, ⟨?_, ?_⟩⟩, rfl, fun txt h => ?_, fun probe u => ?_⟩
  · intro h
    cases step with
    | throws => exact absurd h (by simp [classify])
    | loaded node =>
      cases node with
      | none => exact absurd h (by simp [classify, evalIsAvailable])
      | some txt =>
        refine ⟨txt, rfl, ?_⟩
        by_contra hne
        rw [classify, if_neg (by simp [evalIsAvailable, hne])] at h
        exact CheckResult.noConfusion h
  · rintro ⟨txt, rfl, htxt⟩
    rw [classify, if_pos (by simp [evalIsAvailable, htxt])]
  · intro h
    cases step with
    | throws => rfl
    | loaded node =>
      rw [classify] at h
      rcases Bool.eq_false_or_eq_true (evalIsAvailable node) with hn | hn <;>
        rw [hn] at h <;> simp at h
  · rintro rfl; rfl
  · rw [classify, if_neg (by simp [evalIsAvailable, h])]
  · cases hp : probe u with
    | throws => simp [probeAvail, hp, classify]
    | loaded node =>
      simp only [probeAvail, hp, classify]
      rcases Bool.eq_false_or_eq_true (evalIsAvailable node) with hn | hn <;> simp [hn]

/-- C8: a probe that throws for one identifier is skipped and does not
affect the worker's classification of the remaining identifiers of the
chunk: the loop's result with the throwing identifier present equals its
result with that identifier removed. -/
theorem C8_probe_failure_isolated (probe : JStr → ProbeStep) (u : JStr)
    (xs ys : List JStr) (h : probe u = .throws) :
    workerLoop probe (xs ++ u :: ys) = workerLoop probe (xs ++ ys) := by
  rw [workerLoop_eq_filter, workerLoop_eq_filter, List.filter_append,
    List.filter_append, List.filter_cons, if_neg (by simp [probeAvail, h])]

def probeBadMiddle : JStr → ProbeStep := fun u =>
  if u = "bad".data then .throws else .loaded (some "Not Found!".data)

theorem C8_probe_failure_isolated_witness :
    workerLoop probeBadMiddle (["aa".data] ++ "bad".data :: ["cc".data]) =
      workerLoop probeBadMiddle (["aa".data] ++ ["cc".data]) :=
  C8_probe_failure_isolated probeBadMiddle "bad".data ["aa".data] ["cc".data] (by decide)

/-- C9: a worker's report is a subsequence of its assigned chunk, and every
identifier the run would append to the store occurs in the parsed input
file — whatever the probe outcomes and worker fates. -/
theorem C9_report_subset_of_chunk_and_input :
    (∀ (env : WorkerEnv) (chunk : List JStr),
        List.Sublist (workerThreadPost env chunk) chunk)
    ∧ (∀ (cfg : RunConfig) (content : JStr) (u : JStr),
        cfg.inputContent = some content →
        u ∈ jsSetDedup ((runMain cfg).newly) → u ∈ parseLines content) := by
  refine ⟨workerThreadPost_sublist, fun cfg content u hin hu => ?_⟩
  rw [mem_jsSetDedup] at hu
  rw [runMain_eq cfg content hin] at hu
  split_ifs at hu with h1 h2
  · exact absurd hu (by simp)
  · exact absurd hu (by simp)
  · exact runNewly_subset_input cfg content u hu

/-- C10: a supplied worker-count argument that parses to NaN or to a
non-positive integer makes the spawn loop run zero times: no chunk is
spawned, nothing is merged, the store is not written, and the run still
finishes with exit code 0. -/
theorem C10_invalid_worker_count (cfg : RunConfig) (content : JStr)
    (hin : cfg.inputContent = some content)
    (hw : cfg.workersArg = some none ∨ ∃ z : Int, cfg.workersArg = some (some z) ∧ z ≤ 0) :
    (runMain cfg).chunks = [] ∧ (runMain cfg).newly = []
    ∧ (runMain cfg).finalStore = cfg.store0 ∧ (runMain cfg).exitCode = 0 := by
  have hiters : jsLoopIters cfg.numWorkers = 0 := by
    rcases hw with hw | ⟨z, hw, hz⟩
    · rw [RunConfig.numWorkers, hw]
      rfl
    · rw [RunConfig.numWorkers, hw]
      show z.toNat = 0
      omega
  have hchunks : runChunks cfg content = [] := chunksFor_eq_nil hiters
  have hnewly : runNewly cfg content = [] := runNewly_eq_nil_of_chunks_nil hchunks
  have haborted : runAborted cfg content = false := by
    unfold runAborted
    rw [hchunks]
    rfl
  have hfinal : runFinalStore cfg content = cfg.store0 := by
    unfold runFinalStore
    rw [haborted, hnewly]
    simp
  rw [runMain_eq cfg content hin]
  split_ifs <;> simp [hchunks, hnewly, hfinal]

def probeAllAvail : JStr → ProbeStep := fun _ => .loaded (some "Not Found!".data)

def allOkEnv : WorkerEnv := ⟨true, true, probeAllAvail, true, true⟩

def cfgNaN : RunConfig :=
  { inputContent := some "alice\ncarol".data
  , storeContent := some "bob\n".data
  , workersArg := some none
  , cpus := 4
  , fates := fun _ => .completes allOkEnv }

theorem C10_invalid_worker_count_witness :
    (runMain cfgNaN).chunks = [] ∧ (runMain cfgNaN).newly = []
    ∧ (runMain cfgNaN).finalStore = cfgNaN.store0 ∧ (runMain cfgNaN).exitCode = 0 :=
  C10_invalid_worker_count cfgNaN "alice\ncarol".data rfl (Or.inl rfl)

def cfgErrorEvent : RunConfig :=
  { inputContent := some "alice\ncarol".data
  , storeContent := some "bob\n".data
  , workersArg := some (some 2)
  , cpus := 1
  , fates := fun i => if i = 1 then .errorEvent else .completes allOkEnv }

/-- C1 counterexample: the second worker's `error` event rejects
`Promise.all`; the sibling worker had already reported "alice" available,
yet the run skips the merge/append step entirely and leaves the store
untouched. -/
theorem C1_counterexample :
    (runMain cfgErrorEvent).joinAborted = true
    ∧ (runMain cfgErrorEvent).newly = ["alice".data]
    ∧ (runMain cfgErrorEvent).finalStore = "bob\n".data := by decide

/-- C1 (amended): as long as no spawned worker emits an `error` event —
workers that exit abnormally with no message merely contribute nothing —
the fan-in join completes and the run proceeds to the append step,
writing exactly when the merged set is non-empty; but a worker `error`
event rejects the join and the append step is skipped. -/
theorem C1_join_waits_unless_error_event (cfg : RunConfig) (content : JStr)
    (hin : cfg.inputContent = some content)
    (hok : ∀ i, i < (runChunks cfg content).length → isErrorFate (cfg.fates i) = false) :
    (runMain cfg).joinAborted = false
    ∧ ((runMain cfg).newly = [] → (runMain cfg).finalStore = cfg.store0)
    ∧ ((runMain cfg).newly ≠ [] → (runMain cfg).finalStore =
        cfg.store0 ++ List.intercalate ['\n'] (jsSetDedup ((runMain cfg).newly)) ++ ['\n']) := by
  have haborted : runAborted cfg content = false := by
    unfold runAborted
    rw [List.any_eq_false]
    intro i hi
    rw [List.mem_range] at hi
    simp [hok i hi]
  rw [runMain_eq cfg content hin]
  split_ifs with h1 h2
  · simp
  · simp
  · refine ⟨haborted, fun hn => ?_, fun hn => ?_⟩
    · show runFinalStore cfg content = cfg.store0
      unfold runFinalStore
      rw [haborted]
      simp only [Bool.false_eq_true, if_false]
      rw [if_pos (by exact hn)]
    · show runFinalStore cfg content = _
      unfold runFinalStore
      rw [haborted]
      simp only [Bool.false_eq_true, if_false]
      rw [if_neg (by exact hn)]

def cfgAbnormalExit : RunConfig :=
  { inputContent := some "alice\ncarol".data
  , storeContent := some "bob\n".data
  , workersArg := some (some 2)
  , cpus := 1
  , fates := fun i => if i = 1 then .abnormalExit else .completes allOkEnv }

theorem C1_join_waits_unless_error_event_witness :
    (runMain cfgAbnormalExit).joinAborted = false
    ∧ ((runMain cfgAbnormalExit).newly = [] →
        (runMain cfgAbnormalExit).finalStore = cfgAbnormalExit.store0)
    ∧ ((runMain cfgAbnormalExit).newly ≠ [] →
        (runMain cfgAbnormalExit).finalStore = cfgAbnormalExit.store0 ++
          List.intercalate ['\n'] (jsSetDedup ((runMain cfgAbnormalExit).newly)) ++ ['\n']) :=
  C1_join_waits_unless_error_event cfgAbnormalExit "alice\ncarol".data rfl (by decide)

def wsDup : List JStr := ["aa".data, "aa".data]

/-- C3 counterexample: a work set with a duplicated identifier (the input
file may repeat a line; nothing deduplicates the work set) and worker
count 2 yields two distinct chunks both containing the identifier — their
intersection is non-empty. -/
theorem C3_counterexample :
    chunksFor wsDup (some 2) = [["aa".data], ["aa".data]]
    ∧ "aa".data ∈ (chunksFor wsDup (some 2)).headD []
    ∧ "aa".data ∈ (chunksFor wsDup (some 2)).getLastD [] := by decide

/-- C3 (amended): for every work set and worker count ≥ 1 the spawned
chunks concatenate to exactly the work set (in particular their union as
sets is the work set), no spawned chunk is empty, and — provided the work
set has no duplicate identifiers — distinct chunks are pairwise
disjoint. -/
theorem C3_chunks_partition (ws : List JStr) (z : Int) (hz : 1 ≤ z) :
    (chunksFor ws (some z)).flatten = ws
    ∧ (∀ c ∈ chunksFor ws (some z), c ≠ [])
    ∧ (ws.Nodup → (chunksFor ws (some z)).Pairwise List.Disjoint) :=
  ⟨flatten_chunksFor hz, fun _ hc => mem_sliceChunks_ne_nil hc,
    fun hnd => sliceChunks_pairwise_disjoint hnd⟩

theorem C3_chunks_partition_witness :
    (chunksFor ["aa".data, "bb".data, "cc".data] (some 2)).flatten
        = ["aa".data, "bb".data, "cc".data]
    ∧ (∀ c ∈ chunksFor ["aa".data, "bb".data, "cc".data] (some 2), c ≠ [])
    ∧ (["aa".data, "bb".data, "cc".data].Nodup →
        (chunksFor ["aa".data, "bb".data, "cc".data] (some 2)).Pairwise List.Disjoint) :=
  C3_chunks_partition ["aa".data, "bb".data, "cc".data] 2 (by decide)

def probeFirstThenDead : JStr → ProbeStep := fun u =>
  if u = "aa".data then .loaded (some "Not Found!".data) else .throws

def deadConnEnv : WorkerEnv := ⟨true, true, probeFirstThenDead, false, true⟩

/-- C5 counterexample: the shared connection dies after the first probe
(the probe of "bb" and the trailing `page.close` throw), yet the worker
posts the non-empty partial accumulator `["aa"]` — not an empty
report. -/
theorem C5_counterexample :
    probeFirstThenDead "bb".data = .throws
    ∧ deadConnEnv.closeOk = false
    ∧ workerThreadPost deadConnEnv ["aa".data, "bb".data] = ["aa".data] := by decide

/-- C5 (amended): a worker never propagates a failure uncaught — exactly
one message is posted, carrying a subsequence of its chunk: empty when
`connect` fails or when the promise rejects (`disconnect` failure), and
the loop's accumulator — a possibly partial, possibly non-empty subset —
otherwise. -/
theorem C5_worker_always_reports (env : WorkerEnv) (us : List JStr) :
    (env.connectOk = false → workerThreadPost env us = [])
    ∧ (env.disconnectOk = false → workerThreadPost env us = [])
    ∧ List.Sublist (workerThreadPost env us) us
    ∧ (env.connectOk = true → env.newPageOk = true → env.disconnectOk = true →
        workerThreadPost env us = workerLoop env.probe us) := by
  obtain ⟨co, np, pr, cl, dis⟩ := env
  unfold workerThreadPost workerCheckAvailability
  cases co <;> cases np <;> cases dis <;>
    simp [workerLoop_sublist]

theorem runMain_eq_none (cfg : RunConfig) (hin : cfg.inputContent = none) :
    runMain cfg = ⟨1, [], false, [], cfg.store0⟩ := by
  rw [runMain, hin]

theorem mem_jsSetDedup_runNewly_props {cfg : RunConfig} {content : JStr} :
    ∀ u ∈ jsSetDedup (runNewly cfg content),
      trimChars u = u ∧ u ≠ [] ∧ ¬ '\n' ∈ u := by
  intro u hu
  rw [mem_jsSetDedup] at hu
  exact mem_parseLines (runNewly_subset_input cfg content u hu)

def cfgGlue : RunConfig :=
  { inputContent := some "carol".data
  , storeContent := some "bob".data
  , workersArg := some (some 1)
  , cpus := 1
  , fates := fun _ => .completes allOkEnv }

/-- C7 counterexample: with a store lacking a trailing newline, the
append glues the first new identifier onto the last existing line: the
stored line "bob" becomes "bobcarol", so the post-run line set is not a
superset of the pre-run one. -/
theorem C7_counterexample :
    parseLines cfgGlue.store0 = ["bob".data]
    ∧ (runMain cfgGlue).finalStore = "bobcarol\n".data
    ∧ parseLines ((runMain cfgGlue).finalStore) = ["bobcarol".data] := by decide

/-- C7 (amended): for every run — whatever the starting store content —
the final raw content has the initial content as a prefix and no write
happens when nothing new was found; and whenever the initial store
consists of newline-terminated lines, the parsed line list is preserved
exactly as a prefix, each newly appended identifier landing on its own
line. -/
theorem C7_append_monotone (cfg : RunConfig) :
    (∃ suffix, (runMain cfg).finalStore = cfg.store0 ++ suffix)
    ∧ ((runMain cfg).newly = [] → (runMain cfg).finalStore = cfg.store0)
    ∧ (∀ raw, cfg.store0 = joinLines raw → (∀ l ∈ raw, ¬ '\n' ∈ l) →
        parseLines ((runMain cfg).finalStore) = parseLines cfg.store0
        ∨ parseLines ((runMain cfg).finalStore) =
            parseLines cfg.store0 ++ jsSetDedup ((runMain cfg).newly)) := by
  rcases hin : cfg.inputContent with _ | content
  · rw [runMain_eq_none cfg hin]
    exact ⟨⟨[], by simp⟩, fun _ => rfl, fun raw _ _ => Or.inl rfl⟩
  · rw [runMain_eq cfg content hin]
    split_ifs with h1 h2
    · exact ⟨⟨[], by simp⟩, fun _ => rfl, fun raw _ _ => Or.inl rfl⟩
    · exact ⟨⟨[], by simp⟩, fun _ => rfl, fun raw _ _ => Or.inl rfl⟩
    · show (∃ suffix, runFinalStore cfg content = cfg.store0 ++ suffix)
        ∧ (runNewly cfg content = [] → runFinalStore cfg content = cfg.store0)
        ∧ (∀ raw, cfg.store0 = joinLines raw → (∀ l ∈ raw, ¬ '\n' ∈ l) →
            parseLines (runFinalStore cfg content) = parseLines cfg.store0
            ∨ parseLines (runFinalStore cfg content) =
                parseLines cfg.store0 ++ jsSetDedup (runNewly cfg content))
      unfold runFinalStore
      by_cases ha : runAborted cfg content = true
      · rw [if_pos ha]
        exact ⟨⟨[], by simp⟩, fun _ => rfl, fun raw _ _ => Or.inl rfl⟩
      · rw [if_neg ha]
        by_cases hn : runNewly cfg content = []
        · rw [if_pos hn]
          exact ⟨⟨[], by simp⟩, fun _ => rfl, fun raw _ _ => Or.inl rfl⟩
        · rw [if_neg hn]
          refine ⟨⟨List.intercalate ['\n'] (jsSetDedup (runNewly cfg content)) ++ ['\n'],
            by rw [List.append_assoc]⟩, fun h => absurd h hn,
            fun raw hstore hraw => Or.inr ?_⟩
          rw [hstore]
          exact parseLines_append hraw mem_jsSetDedup_runNewly_props (jsSetDedup_ne_nil hn)

def cfgMono : RunConfig :=
  { inputContent := some "carol".data
  , storeContent := some "bob\n".data
  , workersArg := some (some 1)
  , cpus := 1
  , fates := fun _ => .completes allOkEnv }

theorem C7_append_monotone_witness :
    (∃ suffix, (runMain cfgMono).finalStore = cfgMono.store0 ++ suffix)
    ∧ ((runMain cfgMono).newly = [] → (runMain cfgMono).finalStore = cfgMono.store0)
    ∧ (parseLines ((runMain cfgMono).finalStore) = parseLines cfgMono.store0
       ∨ parseLines ((runMain cfgMono).finalStore) =
           parseLines cfgMono.store0 ++ jsSetDedup ((runMain cfgMono).newly)) :=
  ⟨(C7_append_monotone cfgMono).1, (C7_append_monotone cfgMono).2.1,
    (C7_append_monotone cfgMono).2.2 ["bob".data] (by decide) (by decide)⟩

def cfgRun1 : RunConfig :=
  { inputContent := some "aa".data
  , storeContent := some "x".data
  , workersArg := some (some 1)
  , cpus := 1
  , fates := fun _ => .completes allOkEnv }

def cfgRun2 : RunConfig :=
  { cfgRun1 with storeContent := some ((runMain cfgRun1).finalStore) }

/-- C6 counterexample: the first run starts from a store lacking a
trailing newline ("x"); its successful append glues "aa" into the line
"xaa", so the reloaded known set of the second identical run does not
contain "aa" and the second run's new-result set is non-empty again. -/
theorem C6_counterexample :
    (runMain cfgRun1).newly = ["aa".data]
    ∧ (runMain cfgRun1).finalStore = "xaa\n".data
    ∧ (runMain cfgRun2).newly = ["aa".data] := by decide

/-- C6 (amended): provided the starting store consists of
newline-terminated lines, a second run with identical input and unchanged
probe classifications after a first run that appended its findings yields
an empty new-result set. -/
theorem C6_second_run_finds_nothing
    (cfg1 cfg2 : RunConfig) (content : JStr) (raw : List JStr) (f : JStr → ProbeStep)
    (hin1 : cfg1.inputContent = some content)
    (hstore1 : cfg1.store0 = joinLines raw)
    (hraw : ∀ l ∈ raw, ¬ '\n' ∈ l)
    (hf1 : ∀ i, cfg1.fates i = .completes ⟨true, true, f, true, true⟩)
    (hin2 : cfg2.inputContent = some content)
    (hstore2 : cfg2.storeContent = some ((runMain cfg1).finalStore))
    (hf2 : ∀ i, cfg2.fates i = .completes ⟨true, true, f, true, true⟩)
    (happ : ¬ (runMain cfg1).newly = []) :
    (runMain cfg2).newly = [] := by
  have hrm1 := runMain_eq cfg1 content hin1
  by_cases h1 : parseLines content = []
  · rw [hrm1, if_pos h1] at happ
    exact absurd rfl happ
  by_cases h2 : usernamesToCheck cfg1 content = []
  · rw [hrm1, if_neg h1, if_pos h2] at happ
    exact absurd rfl happ
  rw [hrm1, if_neg h1, if_neg h2] at happ
  have happ' : ¬ runNewly cfg1 content = [] := happ
  -- the first run covered the whole work set
  have hchunks1 : ¬ runChunks cfg1 content = [] := fun hc =>
    happ' (runNewly_eq_nil_of_chunks_nil hc)
  have hflat1 : (runChunks cfg1 content).flatten = usernamesToCheck cfg1 content :=
    chunksFor_flatten_of_ne_nil hchunks1
  have hnewly1 : runNewly cfg1 content
      = (usernamesToCheck cfg1 content).filter (probeAvail f) := by
    rw [runNewly_all_ok cfg1 content f hf1, hflat1]
  -- the first run's final store content
  have hab1 : runAborted cfg1 content = false := runAborted_all_ok cfg1 content f hf1
  have hfinal1 : (runMain cfg1).finalStore =
      cfg1.store0 ++ List.intercalate ['\n'] (jsSetDedup (runNewly cfg1 content)) ++ ['\n'] := by
    rw [hrm1, if_neg h1, if_neg h2]
    show runFinalStore cfg1 content = _
    unfold runFinalStore
    rw [if_neg (by rw [hab1]; exact Bool.false_ne_true), if_neg happ']
  -- the second run's known set holds the old lines plus everything appended
  have hknown2 : cfg2.known =
      parseLines (joinLines raw) ++ jsSetDedup (runNewly cfg1 content) := by
    show parseLines cfg2.store0 = _
    rw [RunConfig.store0, hstore2, Option.getD_some, hfinal1, hstore1]
    exact parseLines_append hraw mem_jsSetDedup_runNewly_props (jsSetDedup_ne_nil happ')
  -- the second run finds nothing new
  have hrm2 := runMain_eq cfg2 content hin2
  rw [hrm2, if_neg h1]
  by_cases g2 : usernamesToCheck cfg2 content = []
  · rw [if_pos g2]
  rw [if_neg g2]
  show runNewly cfg2 content = []
  rw [runNewly_all_ok cfg2 content f hf2]
  rw [List.filter_eq_nil_iff]
  intro u hu hav
  have hu2 : u ∈ usernamesToCheck cfg2 content := by
    obtain ⟨c, hc, hu⟩ := List.mem_flatten.mp hu
    exact (mem_chunksFor_sublist hc).subset hu
  have huIn : u ∈ parseLines content := (List.filter_sublist _).subset hu2
  have huNot2 : ¬ u ∈ cfg2.known := by
    have := List.of_mem_filter hu2
    simpa using this
  have huNotOld : ¬ u ∈ parseLines (joinLines raw) := fun hmem =>
    huNot2 (hknown2 ▸ List.mem_append_left _ hmem)
  have huWs1 : u ∈ usernamesToCheck cfg1 content := by
    apply List.mem_filter.mpr
    refine ⟨huIn, ?_⟩
    have : cfg1.known = parseLines (joinLines raw) := by
      rw [RunConfig.known, hstore1]
    rw [this]
    simpa using huNotOld
  have huNew1 : u ∈ runNewly cfg1 content := by
    rw [hnewly1]
    exact List.mem_filter.mpr ⟨huWs1, hav⟩
  exact huNot2 (hknown2 ▸ List.mem_append_right _ (mem_jsSetDedup.mpr huNew1))

def cfgIdem1 : RunConfig :=
  { inputContent := some "carol\ndave".data
  , storeContent := some "bob\n".data
  , workersArg := some (some 1)
  , cpus := 1
  , fates := fun _ => .completes ⟨true, true, probeAllAvail, true, true⟩ }

def cfgIdem2 : RunConfig :=
  { cfgIdem1 with storeContent := some ((runMain cfgIdem1).finalStore) }

theorem C6_second_run_finds_nothing_witness :
    (runMain cfgIdem2).newly = [] :=
  C6_second_run_finds_nothing cfgIdem1 cfgIdem2 "carol\ndave".data ["bob".data]
    probeAllAvail rfl (by decide) (by decide) (fun _ => rfl) rfl rfl (fun _ => rfl)
    (by decide)

end Xin
